import Mathlib

/-!
Verification development for the pr-review-agent repository.

We shallowly embed the two algorithmic components of the backend:
the unified-diff parser (src/backend/src/utils/diff_parser.py) and the
review pipeline orchestrator (src/backend/src/services/orchestrator.py).
Python strings are modelled as Lean `String` (a structure over `List Char`),
Python `int` as `Int`, Python exceptions as `Except PyErr`, and JSON values
(the results of `json.loads`) as the inductive type `Json`.  Library
functions of the Python runtime (`str.startswith`, `str.split`, `int(...)`,
`str.splitlines`, ...) are given explicit executable models below, each one
structurally recursive so that concrete runs reduce definitionally.
-/

namespace PRRA

/-- Python exception kinds that the embedded code can raise. -/
inductive PyErr where
  | keyError
  | typeError
  | attributeError
  deriving DecidableEq, Repr

/-- A JSON value, the result of a successful `json.loads`.  Numbers are
modelled as integers (the pipeline only ever inspects them for dictionary
keys and rendering). -/
inductive Json where
  | null
  | bool (b : Bool)
  | num (n : Int)
  | str (s : String)
  | arr (xs : List Json)
  | obj (kvs : List (String × Json))

/-! ### Models of Python string primitives -/

/-- Model of `s.startswith(p)`. -/
def pyStartsWith (s p : String) : Bool :=
  p.data.isPrefixOf s.data

/-- Model of `s[n:]` for a nonnegative index. -/
def pyDrop (s : String) (n : Nat) : String :=
  String.mk (s.data.drop n)

/-- Model of `s[:n]` for a nonnegative index. -/
def pyTake (s : String) (n : Nat) : String :=
  String.mk (s.data.take n)

/-- Model of `s.strip()`: remove leading and trailing whitespace. -/
def pyStrip (s : String) : String :=
  String.mk (((s.data.dropWhile Char.isWhitespace).reverse.dropWhile Char.isWhitespace).reverse)

/-- Helper for `pySplitlines`: accumulate the current line (reversed). -/
def pySplitlinesAux : List Char → List Char → List String
  | [], acc => if acc.isEmpty then [] else [String.mk acc.reverse]
  | '\r' :: '\n' :: rest, acc => String.mk acc.reverse :: pySplitlinesAux rest []
  | '\n' :: rest, acc => String.mk acc.reverse :: pySplitlinesAux rest []
  | '\r' :: rest, acc => String.mk acc.reverse :: pySplitlinesAux rest []
  | c :: rest, acc => pySplitlinesAux rest (c :: acc)

/-- Model of `s.splitlines()` for the common line boundaries
(newline, carriage return, and the two-character CR LF). -/
def pySplitlines (s : String) : List String :=
  pySplitlinesAux s.data []

/-- Helper for `pySplitAtAt`: split a character list at each
occurrence of the two-character separator used by the hunk-header parse. -/
def pySplitAtAtAux : List Char → List Char → List String
  | '@' :: '@' :: rest, acc => String.mk acc.reverse :: pySplitAtAtAux rest []
  | c :: rest, acc => pySplitAtAtAux rest (c :: acc)
  | [], acc => [String.mk acc.reverse]

/-- Model of `s.split(sep)` with the diff-specific two-character separator
used by the hunk-header parse of the source. -/
def pySplitAtAt (s : String) : List String :=
  pySplitAtAtAux s.data []

/-- Helper for `pySplitComma`. -/
def pySplitCommaAux : List Char → List Char → List String
  | ',' :: rest, acc => String.mk acc.reverse :: pySplitCommaAux rest []
  | c :: rest, acc => pySplitCommaAux rest (c :: acc)
  | [], acc => [String.mk acc.reverse]

/-- Model of `s.split(sep)` with a comma separator. -/
def pySplitComma (s : String) : List String :=
  pySplitCommaAux s.data []

/-- Helper for `pyWords`. -/
def pyWordsAux : List Char → List Char → List String
  | [], acc => if acc.isEmpty then [] else [String.mk acc.reverse]
  | c :: rest, acc =>
    if c.isWhitespace then
      if acc.isEmpty then pyWordsAux rest [] else String.mk acc.reverse :: pyWordsAux rest []
    else
      pyWordsAux rest (c :: acc)

/-- Model of `s.split()` with no separator: split on runs of whitespace,
dropping empty pieces. -/
def pyWords (s : String) : List String :=
  pyWordsAux s.data []

/-- Model of `int(s)`: optional surrounding whitespace, an optional sign,
then a nonempty run of decimal digits; every other input raises
`ValueError`, modelled as `none`. -/
def pyInt (s : String) : Option Int :=
  let t := pyStrip s
  let signDigits : Int × List Char :=
    match t.data with
    | '-' :: ds => (-1, ds)
    | '+' :: ds => (1, ds)
    | ds => (1, ds)
  match signDigits with
  | (sign, ds) =>
    if ds.isEmpty then none
    else if ds.all Char.isDigit then
      some (sign * (Int.ofNat (ds.foldl (fun n c => n * 10 + (c.toNat - 48)) 0)))
    else none

/-! ### The unified-diff parser (src/backend/src/utils/diff_parser.py) -/

/-- Kind of a diff line, mirroring `ChangeType` of the source. -/
inductive ChangeType where
  | addition
  | deletion
  | context
  deriving DecidableEq, Repr

/-- Mirrors the `LineChange` dataclass of the source. -/
structure LineChange where
  type : ChangeType
  line : Option Int
  content : String
  deriving DecidableEq, Repr

/-- Mirrors the `FileDiff` dataclass of the source. -/
structure FileDiff where
  file : String
  changes : List LineChange
  deriving DecidableEq, Repr

/-- The loop state of `parse_unified_diff`: the output accumulated so far,
the file currently being built, and the current new-file line cursor. -/
structure ParseState where
  fileDiffs : List FileDiff
  currentFile : Option FileDiff
  newLineNo : Option Int
  deriving DecidableEq, Repr

/-- The path computed by the branch of `parse_unified_diff` that handles a
line beginning with the new-file marker: `path_part = line[4:].strip()`,
the `/dev/null` sentinel, and the stripped two-character prefix. -/
def plusPath (line : String) : String :=
  let pathPart := pyStrip (pyDrop line 4)
  if pathPart = ("/dev/null") then ("<deleted-file>")
  else if pyStartsWith pathPart ("a/") || pyStartsWith pathPart ("b/") then pyDrop pathPart 2
  else pathPart

/-- The `try` block of the hunk-header branch:
`line.split(sep)[1].strip()`, whitespace-split, the first token beginning
with a plus sign, everything after that sign up to a comma, parsed by
`int(...)`.  Any failure inside the block yields `none`. -/
def parseHunkNewStart (line : String) : Option Int :=
  match (pySplitAtAt line).get? 1 with
  | none => none
  | some seg =>
    let header := pyStrip seg
    let parts := pyWords header
    match parts.find? (fun p => pyStartsWith p ("+")) with
    | none => none
    | some newPart => pyInt ((pySplitComma (pyDrop newPart 1)).headD (""))

/-- One iteration of the `while i < len(lines)` loop of
`parse_unified_diff`, processing a single line. -/
def processLine (st : ParseState) (line : String) : ParseState :=
  if pyStartsWith line ("diff --git ") then
    { fileDiffs := st.fileDiffs ++ st.currentFile.toList
      currentFile := none
      newLineNo := none }
  else if pyStartsWith line ("+++ ") then
    { st with currentFile := some { file := plusPath line, changes := [] } }
  else if pyStartsWith line ("@@ ") && st.currentFile.isSome then
    { st with newLineNo := parseHunkNewStart line }
  else
    match st.currentFile, st.newLineNo, line.data with
    | some cf, some n, c :: rest =>
      if c = '+' then
        { st with
          currentFile := some { cf with changes := cf.changes ++ [⟨ChangeType.addition, some n, String.mk rest⟩] }
          newLineNo := some (n + 1) }
      else if c = '-' then
        { st with
          currentFile := some { cf with changes := cf.changes ++ [⟨ChangeType.deletion, none, String.mk rest⟩] } }
      else if c = ' ' ∨ c = '\t' then
        { st with
          currentFile := some { cf with changes := cf.changes ++ [⟨ChangeType.context, some n, String.mk rest⟩] }
          newLineNo := some (n + 1) }
      else st
    | _, _, _ => st

/-- The initial loop state of `parse_unified_diff`. -/
def initState : ParseState := ⟨[], none, none⟩

/-- Model of `parse_unified_diff` of src/backend/src/utils/diff_parser.py:
split the input into lines, run the line loop, and append the still-open
file at end of input. -/
def parse_unified_diff (diff_text : String) : List FileDiff :=
  let st := (pySplitlines diff_text).foldl processLine initState
  st.fileDiffs ++ st.currentFile.toList

/-! ### Models of Python value primitives used by the orchestrator -/

/-- Decimal digits of a natural number, most significant first, computed
with an explicit fuel argument so that the definition is structurally
recursive (any fuel above the digit count gives the exact digits). -/
def natDigitsRev : Nat → Nat → List Char
  | 0, _ => []
  | fuel + 1, n =>
    if n < 10 then [Char.ofNat (48 + n)]
    else Char.ofNat (48 + n % 10) :: natDigitsRev fuel (n / 10)

/-- Model of Python `str(i)` for an integer. -/
def intToStr : Int → String
  | Int.ofNat n => String.mk ((natDigitsRev (n + 1) n).reverse)
  | Int.negSucc m => String.mk ('-' :: (natDigitsRev (m + 2) (m + 1)).reverse)

/-- A single-quote character, used by the model of Python `repr`. -/
def quoteStr : String := String.mk [Char.ofNat 39]

/-- Comma-and-space join, as produced by Python container `repr`. -/
def joinComma : List String → String
  | [] => ""
  | [s] => s
  | s :: rest => s ++ (", ") ++ joinComma rest

mutual

/-- Model of Python `repr` on JSON-shaped values (string escaping inside
`repr` of a string is not modelled; the pipeline only renders scalars). -/
def pyRepr : Json → String
  | Json.null => "None"
  | Json.bool b => if b then ("True") else ("False")
  | Json.num n => intToStr n
  | Json.str s => quoteStr ++ s ++ quoteStr
  | Json.arr xs => ("[") ++ joinComma (pyReprList xs) ++ ("]")
  | Json.obj kvs => ("\x7b") ++ joinComma (pyReprPairs kvs) ++ ("\x7d")

/-- `repr` of each element of a list. -/
def pyReprList : List Json → List String
  | [] => []
  | x :: xs => pyRepr x :: pyReprList xs

/-- `repr` of each key-value pair of a dictionary. -/
def pyReprPairs : List (String × Json) → List String
  | [] => []
  | (k, v) :: kvs => (quoteStr ++ k ++ quoteStr ++ (": ") ++ pyRepr v) :: pyReprPairs kvs

end

/-- Model of Python `str(v)`, as used by f-string interpolation. -/
def pyStr : Json → String
  | Json.null => "None"
  | Json.bool b => if b then ("True") else ("False")
  | Json.num n => intToStr n
  | Json.str s => s
  | v => pyRepr v

/-- Model of Python `v[k]` subscription with a string key: succeeds only on
a dictionary that has the key; a missing key raises `KeyError`, every
non-dictionary raises `TypeError`. -/
def pySubscript (v : Json) (k : String) : Except PyErr Json :=
  match v with
  | Json.obj kvs =>
    match kvs.lookup k with
    | some x => Except.ok x
    | none => Except.error PyErr.keyError
  | _ => Except.error PyErr.typeError

/-- Model of Python `v.get(k, d)`: succeeds on a dictionary, every other
value has no `get` attribute and raises `AttributeError`. -/
def pyDictGet (v : Json) (k : String) (d : Json) : Except PyErr Json :=
  match v with
  | Json.obj kvs => Except.ok ((kvs.lookup k).getD d)
  | _ => Except.error PyErr.attributeError

/-- Model of Python iteration over a value (as consumed by a `for` loop or
by `list.extend`): a list yields its elements, a string its characters,
a dictionary its keys; every other value raises `TypeError`. -/
def pyIter (v : Json) : Except PyErr (List Json) :=
  match v with
  | Json.arr xs => Except.ok xs
  | Json.str s => Except.ok (s.data.map (fun c => Json.str (String.mk [c])))
  | Json.obj kvs => Except.ok (kvs.map (fun kv => Json.str kv.1))
  | _ => Except.error PyErr.typeError

/-- Model of Python `v[:50]`: strings and lists are sliced, every other
value raises `TypeError`. -/
def pySlice50 (v : Json) : Except PyErr Json :=
  match v with
  | Json.str s => Except.ok (Json.str (pyTake s 50))
  | Json.arr xs => Except.ok (Json.arr (xs.take 50))
  | _ => Except.error PyErr.typeError

/-- A hashable scalar, as storable in a Python `set`.  Booleans hash and
compare equal to the integers 0 and 1, so they are normalised to numbers. -/
inductive PyKey where
  | knull
  | knum (n : Int)
  | kstr (s : String)
  deriving DecidableEq, Repr

/-- The hashable view of a JSON value: lists and dictionaries are
unhashable (`none`), booleans normalise to integers. -/
def toHashable : Json → Option PyKey
  | Json.null => some PyKey.knull
  | Json.bool b => some (PyKey.knum (if b then 1 else 0))
  | Json.num n => some (PyKey.knum n)
  | Json.str s => some (PyKey.kstr s)
  | _ => none

/-! ### The review pipeline (src/backend/src/services/orchestrator.py) -/

/-- The four review agents, in the order in which
`run_review_pipeline` submits them to the thread pool. -/
inductive AgentType where
  | readability
  | logic
  | performance
  | security
  deriving DecidableEq, Repr

/-- The submission order of the futures dictionary: readability, logic,
performance, security. -/
def agentOrder : List AgentType :=
  [AgentType.readability, AgentType.logic, AgentType.performance, AgentType.security]

/-- The body of the `try`/`except` around `future.result()`: a worker
exception is logged and replaced by the empty-array string. -/
def bracketResult : Except String String → String
  | Except.ok s => s
  | Except.error _ => ("[]")

/-- The list of completion events of the thread pool under completion
schedule `sched`: the workers terminate in the order given by `sched`,
each delivering its own outcome. -/
def completionEvents (sched : List AgentType) (outcome : AgentType → Except String String) :
    List (AgentType × Except String String) :=
  sched.map (fun a => (a, outcome a))

/-- Joining on one submitted future: look its terminal outcome up among
the completion events (`future.result()` blocks until the event exists;
a schedule that never completes the worker is modelled by an error). -/
def futureResult (sched : List AgentType) (outcome : AgentType → Except String String)
    (a : AgentType) : Except String String :=
  match (completionEvents sched outcome).lookup a with
  | some r => r
  | none => Except.error ("pending")

/-- The collection loop `for future in futures`: iterate over the futures
dictionary in submission order, join on each future, and map a worker
exception to the empty-array string.  The resulting association list is
the `agent_results` dictionary in its insertion order. -/
def collectAgentResults (sched : List AgentType) (outcome : AgentType → Except String String) :
    List (AgentType × String) :=
  agentOrder.map (fun a => (a, bracketResult (futureResult sched outcome a)))

/-- The body of the per-agent parsing loop, given the string selected by
the fenced-block search (`json_str` in the source): `json.loads`, then
`all_comments.extend` on a list result or on the `comments` entry of a
dictionary result.  `jparse` is the model of `json.loads` (`none` is a
`JSONDecodeError`, which the source catches and logs). -/
def parseFindings (jparse : String → Option Json) (json_str : String) :
    Except PyErr (List Json) :=
  match jparse json_str with
  | none => Except.ok []
  | some (Json.arr xs) => Except.ok xs
  | some (Json.obj kvs) =>
    match kvs.lookup ("comments") with
    | none => Except.ok []
    | some v => pyIter v
  | some _ => Except.ok []

/-- Extraction of findings from one worker's raw output: search for a
fenced block labelled `json` (`fence` models the `re.search` call, giving
the first capture group when the pattern matches), parse the block if
present and otherwise the whole raw output. -/
def extractFindings (fence : String → Option String) (jparse : String → Option Json)
    (result_str : String) : Except PyErr (List Json) :=
  let json_str :=
    match fence result_str with
    | some s => s
    | none => result_str
  match jparse json_str with
  | none => Except.ok []
  | some (Json.arr xs) => Except.ok xs
  | some (Json.obj kvs) =>
    match kvs.lookup ("comments") with
    | none => Except.ok []
    | some v => pyIter v
  | some _ => Except.ok []

/-- The `all_comments` accumulation loop over `agent_results.items()`:
extract each worker's findings and concatenate, propagating any raised
exception at the point it occurs. -/
def collectAllComments (fence : String → Option String) (jparse : String → Option Json)
    (results : List (AgentType × String)) : Except PyErr (List Json) :=
  results.foldlM (fun acc p => do
    let xs ← extractFindings fence jparse p.2
    pure (acc ++ xs)) []

/-- The deduplication key of one comment:
`(comment.get("file", ""), comment.get("line", 0), comment.get("issue", "")[:50])`,
followed by the hashing that `key not in seen` performs on the tuple.
A non-dictionary comment raises `AttributeError`; an unsliceable issue
value or an unhashable component raises `TypeError`. -/
def commentKey (c : Json) : Except PyErr (PyKey × PyKey × PyKey) :=
  match c with
  | Json.obj kvs => do
    let fileV := (kvs.lookup ("file")).getD (Json.str (""))
    let lineV := (kvs.lookup ("line")).getD (Json.num 0)
    let issueV ← pySlice50 ((kvs.lookup ("issue")).getD (Json.str ("")))
    match toHashable fileV, toHashable lineV, toHashable issueV with
    | some kf, some kl, some ki => pure (kf, kl, ki)
    | _, _, _ => Except.error PyErr.typeError
  | _ => Except.error PyErr.attributeError

/-- The deduplication loop: keep a comment exactly when its key has not
been seen before. -/
def dedupGo (seen : List (PyKey × PyKey × PyKey)) : List Json → Except PyErr (List Json)
  | [] => Except.ok []
  | c :: rest => do
    let k ← commentKey c
    if k ∈ seen then
      dedupGo seen rest
    else do
      let out ← dedupGo (k :: seen) rest
      pure (c :: out)

/-- The deduplication pass of `run_review_pipeline`, starting from an
empty `seen` set. -/
def dedupComments (cs : List Json) : Except PyErr (List Json) :=
  dedupGo [] cs

/-- One iteration of the inner rendering loop of `run_review_pipeline`
(`for change in file_data.get("changes", [])`): append the formatted
entry for an addition or a deletion, skip anything else. -/
def renderChangeStep (acc2 : String) (ch : Json) : Except PyErr String := do
  let t ← pySubscript ch ("type")
  match t with
  | Json.str s =>
    if s = ("addition") then do
      let l ← pySubscript ch ("line")
      let cont ← pySubscript ch ("content")
      pure (acc2 ++ ("  Line ") ++ pyStr l ++ (" (+): ") ++ pyStr cont ++ ("\n"))
    else if s = ("deletion") then do
      let l ← pySubscript ch ("line")
      let cont ← pySubscript ch ("content")
      pure (acc2 ++ ("  Line ") ++ pyStr l ++ (" (-): ") ++ pyStr cont ++ ("\n"))
    else pure acc2
  | _ => pure acc2

/-- One iteration of the outer rendering loop of `run_review_pipeline`
(`for file_data in structured_diff.get("files", [])`). -/
def renderFileStep (acc : String) (fdata : Json) : Except PyErr String := do
  let fileV ← pySubscript fdata ("file")
  let acc := acc ++ ("File: ") ++ pyStr fileV ++ ("\n") ++ ("Changes:\n")
  let changesV ← pyDictGet fdata ("changes") (Json.arr [])
  let changes ← pyIter changesV
  let acc ← changes.foldlM renderChangeStep acc
  pure (acc ++ ("\n"))

/-- The rendering step of `run_review_pipeline`: build `diff_context` from
`structured_diff.get("files", [])`, emitting per file its path and a
formatted entry for each addition and each deletion. -/
def renderDiffContext (sd : List (String × Json)) : Except PyErr String := do
  let files ← pyIter ((sd.lookup ("files")).getD (Json.arr []))
  files.foldlM renderFileStep ("Code changes to review:\n\n")

/-- The final value of `run_review_pipeline`, i.e. the dictionary
`{"comments": comments}`. -/
structure ReviewOutput where
  comments : List Json

/-- Model of `run_review_pipeline` of
src/backend/src/services/orchestrator.py.  `sched` is the real-time
completion order of the four concurrent workers, `fence` the fenced-block
search, `jparse` the JSON parser, and `outcome` gives each worker's raw
output (or exception) on the rendered context. -/
def run_review_pipeline (sched : List AgentType) (fence : String → Option String)
    (jparse : String → Option Json) (outcome : AgentType → String → Except String String)
    (sd : List (String × Json)) : Except PyErr ReviewOutput := do
  let diff_context ← renderDiffContext sd
  let agent_results := collectAgentResults sched (fun a => outcome a diff_context)
  let all_comments ← collectAllComments fence jparse agent_results
  let comments ← dedupComments all_comments
  pure ⟨comments⟩

/-! ### General lemmas about the embedded primitives -/

/-- Two incomparable marker strings cannot both be prefixes of one line. -/
theorem pyStartsWith_excl {l p q : String} (h : pyStartsWith l p = true)
    (h1 : ¬ (q.data <+: p.data)) (h2 : ¬ (p.data <+: q.data)) :
    pyStartsWith l q = false := by
  unfold pyStartsWith at *
  by_contra hc
  have hq : q.data <+: l.data :=
    List.isPrefixOf_iff_prefix.mp (eq_true_of_ne_false hc)
  have hp : p.data <+: l.data := List.isPrefixOf_iff_prefix.mp h
  rcases List.prefix_or_prefix_of_prefix hq hp with h3 | h3
  exacts [h1 h3, h2 h3]

/-- A line that opens a git file boundary does not carry the new-file marker. -/
theorem not_plus_of_diffgit {l : String} (h : pyStartsWith l ("diff --git ") = true) :
    pyStartsWith l ("+++ ") = false :=
  pyStartsWith_excl h (by decide) (by decide)

/-- A line that carries the new-file marker does not open a git file boundary. -/
theorem not_diffgit_of_plus {l : String} (h : pyStartsWith l ("+++ ") = true) :
    pyStartsWith l ("diff --git ") = false :=
  pyStartsWith_excl h (by decide) (by decide)

/-- A hunk-header line does not open a git file boundary. -/
theorem not_diffgit_of_atat {l : String} (h : pyStartsWith l ("@@ ") = true) :
    pyStartsWith l ("diff --git ") = false :=
  pyStartsWith_excl h (by decide) (by decide)

/-- A hunk-header line does not carry the new-file marker. -/
theorem not_plus_of_atat {l : String} (h : pyStartsWith l ("@@ ") = true) :
    pyStartsWith l ("+++ ") = false :=
  pyStartsWith_excl h (by decide) (by decide)

/-! ### Behaviour of the parser loop on inputs without file markers (C4) -/

/-- While no line carries the new-file marker, the parser loop keeps an
empty output and no open file. -/
theorem foldl_no_plus (ls : List String) : ∀ st : ParseState,
    (∀ l ∈ ls, pyStartsWith l ("+++ ") = false) →
    st.fileDiffs = [] → st.currentFile = none →
    (ls.foldl processLine st).fileDiffs = [] ∧ (ls.foldl processLine st).currentFile = none := by
  induction ls with
  | nil => intro st _ hf hc; exact ⟨hf, hc⟩
  | cons l ls ih =>
    intro st h hf hc
    have hl : pyStartsWith l ("+++ ") = false := h l (List.mem_cons_self l ls)
    have hrest : ∀ x ∈ ls, pyStartsWith x ("+++ ") = false :=
      fun x hx => h x (List.mem_cons_of_mem l hx)
    rw [List.foldl_cons]
    by_cases hd : pyStartsWith l ("diff --git ") = true
    · exact ih _ hrest (by simp [processLine, hd, hf, hc]) (by simp [processLine, hd])
    · have hstep : processLine st l = st := by
        simp only [processLine, hd, hl, hc]
        simp
      rw [hstep]
      exact ih st hrest hf hc

/-! ### Counting file markers and discarded open files (C10) -/

/-- How many open files the parser state holds (zero or one). -/
def openCount (st : ParseState) : Nat := st.currentFile.toList.length

/-- Derived view of the parser loop for claim C10: the number of open
files that are discarded by a new-file marker arriving while a file is
already open with no git boundary line in between.  The boolean argument
tracks whether a file is currently open. -/
def discardCount : Bool → List String → Nat
  | _, [] => 0
  | isOpen, l :: ls =>
    if pyStartsWith l ("diff --git ") then discardCount false ls
    else if pyStartsWith l ("+++ ") then (if isOpen then 1 else 0) + discardCount true ls
    else discardCount isOpen ls

/-- A line handled by neither marker branch leaves the output length and
the openness of the current file unchanged. -/
theorem processLine_other (st : ParseState) (l : String)
    (hd : pyStartsWith l ("diff --git ") = false)
    (hp : pyStartsWith l ("+++ ") = false) :
    (processLine st l).fileDiffs = st.fileDiffs ∧
    (processLine st l).currentFile.isSome = st.currentFile.isSome := by
  simp only [processLine, hd, hp, Bool.false_eq_true, if_false]
  split
  · exact ⟨rfl, rfl⟩
  · split
    case _ cf n c rest heq hn hdata =>
      split
      · simp [heq]
      · split
        · simp [heq]
        · split
          · simp [heq]
          · exact ⟨rfl, rfl⟩
    case _ => exact ⟨rfl, rfl⟩

/-- The toList of an option has length one exactly when it is some. -/
theorem toList_length_ite {α : Type} (o : Option α) :
    o.toList.length = if o.isSome then 1 else 0 := by cases o <;> rfl

/-- Loop invariant for claim C10: output length plus open files plus
markers discarded so far equals the starting count plus the new-file
markers seen. -/
theorem foldl_marker_count (ls : List String) : ∀ st : ParseState,
    (ls.foldl processLine st).fileDiffs.length + openCount (ls.foldl processLine st)
      + discardCount st.currentFile.isSome ls
    = st.fileDiffs.length + openCount st
      + ls.countP (fun l => pyStartsWith l ("+++ ")) := by
  induction ls with
  | nil => intro st; simp [discardCount]
  | cons l ls ih =>
    rintro ⟨fds, cfo, nlo⟩
    rw [List.foldl_cons, List.countP_cons]
    by_cases hd : pyStartsWith l ("diff --git ") = true
    · have hp : pyStartsWith l ("+++ ") = false := not_plus_of_diffgit hd
      have hstep : processLine ⟨fds, cfo, nlo⟩ l = ⟨fds ++ cfo.toList, none, none⟩ := by
        simp [processLine, hd]
      rw [hstep]
      have hdc : discardCount (ParseState.mk fds cfo nlo).currentFile.isSome (l :: ls)
          = discardCount false ls := by
        simp [discardCount, hd]
      rw [hdc]
      have hih := ih ⟨fds ++ cfo.toList, none, none⟩
      simp only [openCount, Option.isSome_none, Option.toList_none, List.length_nil,
        List.length_append] at hih ⊢
      simp only [hp, Bool.false_eq_true, if_false]
      omega
    · have hd2 : pyStartsWith l ("diff --git ") = false := by
        revert hd; cases pyStartsWith l ("diff --git ") <;> simp
      by_cases hp : pyStartsWith l ("+++ ") = true
      · have hstep : processLine ⟨fds, cfo, nlo⟩ l = ⟨fds, some ⟨plusPath l, []⟩, nlo⟩ := by
          simp [processLine, hd2, hp]
        rw [hstep]
        have hdc : discardCount (ParseState.mk fds cfo nlo).currentFile.isSome (l :: ls)
            = (if cfo.isSome then 1 else 0) + discardCount true ls := by
          simp [discardCount, hd2, hp]
        rw [hdc]
        have hih := ih ⟨fds, some ⟨plusPath l, []⟩, nlo⟩
        simp only [openCount, Option.isSome_some, Option.toList_some, List.length_cons,
          List.length_nil] at hih ⊢
        simp only [hp, if_true]
        cases cfo <;> simp only [Option.isSome_none, Option.isSome_some, Option.toList_none,
          Option.toList_some, List.length_nil, List.length_cons, Bool.false_eq_true,
          if_false, if_true] at hih ⊢ <;> omega
      · have hp2 : pyStartsWith l ("+++ ") = false := by
          revert hp; cases pyStartsWith l ("+++ ") <;> simp
        obtain ⟨h1, h2⟩ := processLine_other ⟨fds, cfo, nlo⟩ l hd2 hp2
        have hdc : discardCount (ParseState.mk fds cfo nlo).currentFile.isSome (l :: ls)
            = discardCount cfo.isSome ls := by
          simp [discardCount, hd2, hp2]
        rw [hdc]
        have hih := ih (processLine ⟨fds, cfo, nlo⟩ l)
        rw [h1] at hih
        have hflag : (processLine ⟨fds, cfo, nlo⟩ l).currentFile.isSome = cfo.isSome := h2
        rw [hflag] at hih
        have hopen : openCount (processLine ⟨fds, cfo, nlo⟩ l) = openCount ⟨fds, cfo, nlo⟩ := by
          unfold openCount
          rw [toList_length_ite, toList_length_ite, hflag]
        rw [hopen] at hih
        simp only [openCount] at hih ⊢
        simp only [hp2, Bool.false_eq_true, if_false]
        omega

/-- Claim C4: `parse_unified_diff` is a total function (the embedding
returns normally on every input string, each fallible Python operation
being modelled explicitly), it returns the empty change set on the empty
string, and it returns the empty change set on any input none of whose
lines carries the new-file marker — in particular on any string with no
diff markers at all. -/
theorem C4_parse_never_fails_empty_on_markerless (s : String)
    (h : ∀ l ∈ pySplitlines s, pyStartsWith l ("+++ ") = false) :
    parse_unified_diff s = [] ∧ parse_unified_diff ("") = [] := by
  constructor
  · obtain ⟨h1, h2⟩ := foldl_no_plus (pySplitlines s) initState h rfl rfl
    simp only [parse_unified_diff]
    rw [h1, h2]
    rfl
  · rfl

/-- Witness for C4 at a concrete marker-free input. -/
theorem C4_parse_never_fails_empty_on_markerless_witness :
    parse_unified_diff ("hello\nworld") = [] ∧ parse_unified_diff ("") = [] :=
  C4_parse_never_fails_empty_on_markerless ("hello\nworld") (by decide)

/-- Claim C10: a new-file marker that arrives while a file is already
open (with no git boundary line in between) replaces the open file
without appending it: the step keeps the output untouched and installs a
fresh empty file, and over a whole parse the number of returned files
plus the number of such discards equals the number of new-file markers,
so whenever a discard occurs the output has strictly fewer entries than
there are new-file markers. -/
theorem C10_open_file_discarded_by_plus_marker (s : String)
    (hpos : 0 < discardCount false (pySplitlines s)) :
    (parse_unified_diff s).length + discardCount false (pySplitlines s)
        = (pySplitlines s).countP (fun l => pyStartsWith l ("+++ ")) ∧
    (parse_unified_diff s).length
        < (pySplitlines s).countP (fun l => pyStartsWith l ("+++ ")) ∧
    (∀ (st : ParseState) (cf : FileDiff) (l : String),
      st.currentFile = some cf → pyStartsWith l ("+++ ") = true →
      (processLine st l).fileDiffs = st.fileDiffs ∧
      (processLine st l).currentFile = some ⟨plusPath l, []⟩) := by
  have hmain : (parse_unified_diff s).length + discardCount false (pySplitlines s)
      = (pySplitlines s).countP (fun l => pyStartsWith l ("+++ ")) := by
    have hinv := foldl_marker_count (pySplitlines s) initState
    have hlen : (parse_unified_diff s).length
        = ((pySplitlines s).foldl processLine initState).fileDiffs.length
          + openCount ((pySplitlines s).foldl processLine initState) := by
      simp only [parse_unified_diff, openCount]
      rw [List.length_append]
    rw [hlen]
    simpa [initState, openCount] using hinv
  refine ⟨hmain, by omega, ?_⟩
  intro st cf l hcf hl
  have hd : pyStartsWith l ("diff --git ") = false := not_diffgit_of_plus hl
  constructor <;> simp [processLine, hd, hl]

/-- Witness for C10 at a concrete input with two new-file markers and no
intervening git boundary: only one file is returned. -/
theorem C10_open_file_discarded_by_plus_marker_witness :
    (parse_unified_diff ("+++ b/a\n+++ b/b")).length + discardCount false (pySplitlines ("+++ b/a\n+++ b/b"))
        = (pySplitlines ("+++ b/a\n+++ b/b")).countP (fun l => pyStartsWith l ("+++ ")) ∧
    (parse_unified_diff ("+++ b/a\n+++ b/b")).length
        < (pySplitlines ("+++ b/a\n+++ b/b")).countP (fun l => pyStartsWith l ("+++ ")) ∧
    (∀ (st : ParseState) (cf : FileDiff) (l : String),
      st.currentFile = some cf → pyStartsWith l ("+++ ") = true →
      (processLine st l).fileDiffs = st.fileDiffs ∧
      (processLine st l).currentFile = some ⟨plusPath l, []⟩) :=
  C10_open_file_discarded_by_plus_marker ("+++ b/a\n+++ b/b") (by decide)

/-- Claim C8, counterexample: the claim asserts that on every input every
addition or context change carries a positive line value (and that the
per-file sequence of such values is non-decreasing).  The concrete input
below produces an addition at line 5 followed, after a second hunk header
declaring new-start 0, by a context change at line 0 — refuting positivity
(and exhibiting a decreasing pair across hunks). -/
theorem C8_counterexample :
    parse_unified_diff ("+++ b/f\n@@ -1 +5 @@\n+a\n@@ -1 +0 @@\n x")
      = [⟨("f"), [⟨ChangeType.addition, some 5, ("a")⟩,
                  ⟨ChangeType.context, some 0, ("x")⟩]⟩] ∧
    ¬ (∀ s : String, ∀ fd ∈ parse_unified_diff s,
        (∀ c ∈ fd.changes, c.type ≠ ChangeType.deletion →
          ∃ n : Int, c.line = some n ∧ 0 < n) ∧
        List.Chain' (fun a b : LineChange => ∀ m n : Int,
            a.line = some m → b.line = some n → m ≤ n)
          (fd.changes.filter (fun c => c.type ≠ ChangeType.deletion))) := by
  constructor
  · rfl
  · intro h
    have hmem : (⟨("f"), [⟨ChangeType.addition, some 5, ("a")⟩,
        ⟨ChangeType.context, some 0, ("x")⟩]⟩ : FileDiff)
        ∈ parse_unified_diff ("+++ b/f\n@@ -1 +5 @@\n+a\n@@ -1 +0 @@\n x") := by
      rw [show parse_unified_diff ("+++ b/f\n@@ -1 +5 @@\n+a\n@@ -1 +0 @@\n x")
          = [⟨("f"), [⟨ChangeType.addition, some 5, ("a")⟩,
                      ⟨ChangeType.context, some 0, ("x")⟩]⟩] from rfl]
      exact List.mem_singleton_self _
    obtain ⟨hpos, _⟩ := h _ _ hmem
    obtain ⟨n, hn, hngt⟩ := hpos ⟨ChangeType.context, some 0, ("x")⟩ (by decide) (by decide)
    simp only [Option.some_inj] at hn
    omega

/-! ### The hunk-body view of the parser loop (C3, C8) -/

/-- Derived view of the hunk-body branch of the parser loop: the changes
recorded from a list of hunk-body lines when the cursor starts at `S`,
classifying each line by its first character exactly as the loop does. -/
def hunkChanges (S : Int) : List String → List LineChange
  | [] => []
  | l :: ls =>
    match l.data with
    | [] => hunkChanges S ls
    | c :: rest =>
      if c = '+' then ⟨ChangeType.addition, some S, String.mk rest⟩ :: hunkChanges (S + 1) ls
      else if c = '-' then ⟨ChangeType.deletion, none, String.mk rest⟩ :: hunkChanges S ls
      else if c = ' ' ∨ c = '\t' then
        ⟨ChangeType.context, some S, String.mk rest⟩ :: hunkChanges (S + 1) ls
      else hunkChanges S ls

/-- Whether a change is an addition or context entry. -/
def isAC (c : LineChange) : Bool :=
  match c.type with
  | ChangeType.deletion => false
  | _ => true

/-- The number of addition or context entries in a change list. -/
def countAC (cs : List LineChange) : Nat :=
  cs.countP isAC

/-- A hunk-body line: one that triggers none of the three marker
branches of the parser loop. -/
def isBodyLine (l : String) : Prop :=
  pyStartsWith l ("diff --git ") = false ∧
  pyStartsWith l ("+++ ") = false ∧
  pyStartsWith l ("@@ ") = false

instance (l : String) : Decidable (isBodyLine l) := by
  unfold isBodyLine
  infer_instance

/-- Processing a list of hunk-body lines from a state with an open file
and a known cursor appends exactly `hunkChanges` to the open file and
advances the cursor by the number of addition/context lines. -/
theorem foldl_hunk_body (ls : List String) : ∀ (st : ParseState) (cf : FileDiff) (S : Int),
    (∀ l ∈ ls, isBodyLine l) → st.currentFile = some cf → st.newLineNo = some S →
    ls.foldl processLine st =
      { fileDiffs := st.fileDiffs
        currentFile := some ⟨cf.file, cf.changes ++ hunkChanges S ls⟩
        newLineNo := some (S + countAC (hunkChanges S ls)) } := by
  induction ls with
  | nil =>
    rintro ⟨fds, cfo, nlo⟩ cf S _ hc hn
    simp only [ParseState.currentFile] at hc
    simp only [ParseState.newLineNo] at hn
    subst hc
    subst hn
    simp [hunkChanges, countAC]
  | cons l ls ih =>
    rintro ⟨fds, cfo, nlo⟩ cf S h hc hn
    simp only [ParseState.currentFile] at hc
    simp only [ParseState.newLineNo] at hn
    subst hc
    subst hn
    obtain ⟨hd, hp, ha⟩ := h l (List.mem_cons_self l ls)
    have hrest : ∀ x ∈ ls, isBodyLine x := fun x hx => h x (List.mem_cons_of_mem l hx)
    rw [List.foldl_cons]
    cases hld : l.data with
    | nil =>
      have hstep : processLine ⟨fds, some cf, some S⟩ l = ⟨fds, some cf, some S⟩ := by
        simp [processLine, hd, hp, ha, hld]
      rw [hstep]
      have hh : hunkChanges S (l :: ls) = hunkChanges S ls := by
        simp [hunkChanges, hld]
      rw [hh]
      exact ih ⟨fds, some cf, some S⟩ cf S hrest rfl rfl
    | cons c rest =>
      by_cases hplus : c = '+'
      · subst hplus
        have hstep : processLine ⟨fds, some cf, some S⟩ l =
            ⟨fds, some ⟨cf.file, cf.changes ++ [⟨ChangeType.addition, some S, String.mk rest⟩]⟩,
              some (S + 1)⟩ := by
          simp [processLine, hd, hp, ha, hld]
        rw [hstep,
          ih _ ⟨cf.file, cf.changes ++ [⟨ChangeType.addition, some S, String.mk rest⟩]⟩
            (S + 1) hrest rfl rfl]
        have hh : hunkChanges S (l :: ls)
            = ⟨ChangeType.addition, some S, String.mk rest⟩ :: hunkChanges (S + 1) ls := by
          simp [hunkChanges, hld]
        rw [hh]
        simp [countAC, isAC, List.countP_cons]
        omega
      · by_cases hminus : c = '-'
        · subst hminus
          have hstep : processLine ⟨fds, some cf, some S⟩ l =
              ⟨fds, some ⟨cf.file, cf.changes ++ [⟨ChangeType.deletion, none, String.mk rest⟩]⟩,
                some S⟩ := by
            simp [processLine, hd, hp, ha, hld, hplus]
          rw [hstep,
            ih _ ⟨cf.file, cf.changes ++ [⟨ChangeType.deletion, none, String.mk rest⟩]⟩
              S hrest rfl rfl]
          have hh : hunkChanges S (l :: ls)
              = ⟨ChangeType.deletion, none, String.mk rest⟩ :: hunkChanges S ls := by
            simp [hunkChanges, hld, hplus]
          rw [hh]
          simp [countAC, isAC, List.countP_cons]
        · by_cases hsp : c = ' ' ∨ c = '\t'
          · have hstep : processLine ⟨fds, some cf, some S⟩ l =
                ⟨fds, some ⟨cf.file, cf.changes ++ [⟨ChangeType.context, some S, String.mk rest⟩]⟩,
                  some (S + 1)⟩ := by
              simp [processLine, hd, hp, ha, hld, hplus, hminus, hsp]
            rw [hstep,
              ih _ ⟨cf.file, cf.changes ++ [⟨ChangeType.context, some S, String.mk rest⟩]⟩
                (S + 1) hrest rfl rfl]
            have hh : hunkChanges S (l :: ls)
                = ⟨ChangeType.context, some S, String.mk rest⟩ :: hunkChanges (S + 1) ls := by
              simp [hunkChanges, hld, hplus, hminus, hsp]
            rw [hh]
            simp [countAC, isAC, List.countP_cons]
            omega
          · have hstep : processLine ⟨fds, some cf, some S⟩ l = ⟨fds, some cf, some S⟩ := by
              simp [processLine, hd, hp, ha, hld, hplus, hminus, hsp]
            rw [hstep]
            have hh : hunkChanges S (l :: ls) = hunkChanges S ls := by
              simp [hunkChanges, hld, hplus, hminus, hsp]
            rw [hh]
            exact ih ⟨fds, some cf, some S⟩ cf S hrest rfl rfl

/-- Per-entry law of the hunk-body view: a deletion entry carries no line
value; an addition or context entry at index `i` carries the declared
start plus the number of addition/context entries before it. -/
theorem hunkChanges_entry (ls : List String) : ∀ (S : Int) (i : Nat) (c : LineChange),
    (hunkChanges S ls).get? i = some c →
    (c.type = ChangeType.deletion → c.line = none) ∧
    (c.type ≠ ChangeType.deletion →
      c.line = some (S + countAC ((hunkChanges S ls).take i))) := by
  induction ls with
  | nil => intro S i c hc; simp [hunkChanges] at hc
  | cons l ls ih =>
    intro S i c hc
    cases hld : l.data with
    | nil =>
      have hh : hunkChanges S (l :: ls) = hunkChanges S ls := by simp [hunkChanges, hld]
      rw [hh] at hc ⊢
      exact ih S i c hc
    | cons ch rest =>
      by_cases hplus : ch = '+'
      · subst hplus
        have hh : hunkChanges S (l :: ls)
            = ⟨ChangeType.addition, some S, String.mk rest⟩ :: hunkChanges (S + 1) ls := by
          simp [hunkChanges, hld]
        rw [hh] at hc ⊢
        cases i with
        | zero =>
          rw [List.get?_cons_zero] at hc
          obtain rfl : (⟨ChangeType.addition, some S, String.mk rest⟩ : LineChange) = c := by
            injection hc
          refine ⟨fun habs => ?_, fun _ => ?_⟩
          · simp at habs
          · simp [countAC]
        | succ i =>
          rw [List.get?_cons_succ] at hc
          refine ⟨(ih (S + 1) i c hc).1, fun hne => ?_⟩
          rw [(ih (S + 1) i c hc).2 hne, List.take_succ_cons]
          simp [countAC, isAC, List.countP_cons]
          omega
      · by_cases hminus : ch = '-'
        · subst hminus
          have hh : hunkChanges S (l :: ls)
              = ⟨ChangeType.deletion, none, String.mk rest⟩ :: hunkChanges S ls := by
            simp [hunkChanges, hld, hplus]
          rw [hh] at hc ⊢
          cases i with
          | zero =>
            rw [List.get?_cons_zero] at hc
            obtain rfl : (⟨ChangeType.deletion, none, String.mk rest⟩ : LineChange) = c := by
              injection hc
            exact ⟨fun _ => rfl, fun hne => absurd rfl hne⟩
          | succ i =>
            rw [List.get?_cons_succ] at hc
            refine ⟨(ih S i c hc).1, fun hne => ?_⟩
            rw [(ih S i c hc).2 hne, List.take_succ_cons]
            simp [countAC, isAC, List.countP_cons]
        · by_cases hsp : ch = ' ' ∨ ch = '\t'
          · have hh : hunkChanges S (l :: ls)
                = ⟨ChangeType.context, some S, String.mk rest⟩ :: hunkChanges (S + 1) ls := by
              simp [hunkChanges, hld, hplus, hminus, hsp]
            rw [hh] at hc ⊢
            cases i with
            | zero =>
              rw [List.get?_cons_zero] at hc
              obtain rfl : (⟨ChangeType.context, some S, String.mk rest⟩ : LineChange) = c := by
                injection hc
              refine ⟨fun habs => ?_, fun _ => ?_⟩
              · simp at habs
              · simp [countAC]
            | succ i =>
              rw [List.get?_cons_succ] at hc
              refine ⟨(ih (S + 1) i c hc).1, fun hne => ?_⟩
              rw [(ih (S + 1) i c hc).2 hne, List.take_succ_cons]
              simp [countAC, isAC, List.countP_cons]
              omega
          · have hh : hunkChanges S (l :: ls) = hunkChanges S ls := by
              simp [hunkChanges, hld, hplus, hminus, hsp]
            rw [hh] at hc ⊢
            exact ih S i c hc

/-- Processing a hunk header followed by its body lines: the header sets
the cursor from its declared new start and the body appends exactly the
hunk-body view of the changes. -/
theorem foldl_header_body (st : ParseState) (cf : FileDiff) (hl : String) (S : Int)
    (body : List String)
    (hcf : st.currentFile = some cf)
    (hhl : pyStartsWith hl ("@@ ") = true)
    (hS : parseHunkNewStart hl = some S)
    (hbody : ∀ l ∈ body, isBodyLine l) :
    (hl :: body).foldl processLine st =
      { fileDiffs := st.fileDiffs
        currentFile := some ⟨cf.file, cf.changes ++ hunkChanges S body⟩
        newLineNo := some (S + countAC (hunkChanges S body)) } := by
  have hd : pyStartsWith hl ("diff --git ") = false := not_diffgit_of_atat hhl
  have hp : pyStartsWith hl ("+++ ") = false := not_plus_of_atat hhl
  have hstep : processLine st hl = { st with newLineNo := parseHunkNewStart hl } := by
    simp [processLine, hd, hp, hhl, hcf]
  rw [List.foldl_cons, hstep]
  exact foldl_hunk_body body { st with newLineNo := parseHunkNewStart hl } cf S hbody
    (by simpa using hcf) (by simp [hS])

/-- Claim C3: after a hunk header declaring new-range start `S`, every
hunk-body line is recorded by its first character; the entry at index `i`
of the recorded changes carries `some (S + number of addition/context
entries before it)` when it is an addition or context entry (the cursor
advancing by one each time, as witnessed by the final cursor value), and
carries no line value when it is a deletion (the cursor unchanged). -/
theorem C3_hunk_line_positions (st : ParseState) (cf : FileDiff) (hl : String) (S : Int)
    (body : List String)
    (hcf : st.currentFile = some cf)
    (hhl : pyStartsWith hl ("@@ ") = true)
    (hS : parseHunkNewStart hl = some S)
    (hbody : ∀ l ∈ body, isBodyLine l) :
    ((hl :: body).foldl processLine st).currentFile
        = some ⟨cf.file, cf.changes ++ hunkChanges S body⟩ ∧
    ((hl :: body).foldl processLine st).newLineNo
        = some (S + countAC (hunkChanges S body)) ∧
    (∀ (i : Nat) (c : LineChange), (hunkChanges S body).get? i = some c →
      (c.type ≠ ChangeType.deletion →
        c.line = some (S + countAC ((hunkChanges S body).take i))) ∧
      (c.type = ChangeType.deletion → c.line = none)) := by
  rw [foldl_header_body st cf hl S body hcf hhl hS hbody]
  exact ⟨rfl, rfl, fun i c hc =>
    ⟨(hunkChanges_entry body S i c hc).2, (hunkChanges_entry body S i c hc).1⟩⟩

/-- Witness for C3 at a concrete hunk with an addition, a deletion and a
context line, starting at declared line 7. -/
theorem C3_hunk_line_positions_witness :
    (((("@@ -1,2 +7,3 @@")) :: [("+a"), ("-b"), (" c")]).foldl processLine
        ⟨[], some ⟨("f"), []⟩, none⟩).currentFile
        = some ⟨("f"), [] ++ hunkChanges 7 [("+a"), ("-b"), (" c")]⟩ ∧
    (((("@@ -1,2 +7,3 @@")) :: [("+a"), ("-b"), (" c")]).foldl processLine
        ⟨[], some ⟨("f"), []⟩, none⟩).newLineNo
        = some (7 + countAC (hunkChanges 7 [("+a"), ("-b"), (" c")])) ∧
    (∀ (i : Nat) (c : LineChange),
      (hunkChanges 7 [("+a"), ("-b"), (" c")]).get? i = some c →
      (c.type ≠ ChangeType.deletion →
        c.line = some (7 + countAC ((hunkChanges 7 [("+a"), ("-b"), (" c")]).take i))) ∧
      (c.type = ChangeType.deletion → c.line = none)) :=
  C3_hunk_line_positions ⟨[], some ⟨("f"), []⟩, none⟩ ⟨("f"), []⟩ ("@@ -1,2 +7,3 @@") 7
    [("+a"), ("-b"), (" c")] rfl (by decide) rfl (by decide)

/-- Claim C8, amended: within one hunk, every addition or context entry
carries a line value equal to the declared start plus the number of prior
addition/context entries — hence at least the declared start, and positive
whenever the declared start is positive — and consecutive addition/context
entries adjacent in the recorded changes increase by exactly one.
(Positivity for arbitrary inputs and monotonicity across hunks fail, see
the counterexample.) -/
theorem C8_amended_hunk_lines_monotone (st : ParseState) (cf : FileDiff) (hl : String)
    (S : Int) (body : List String)
    (hcf : st.currentFile = some cf)
    (hhl : pyStartsWith hl ("@@ ") = true)
    (hS : parseHunkNewStart hl = some S)
    (hSpos : 1 ≤ S)
    (hbody : ∀ l ∈ body, isBodyLine l) :
    ((hl :: body).foldl processLine st).currentFile
        = some ⟨cf.file, cf.changes ++ hunkChanges S body⟩ ∧
    (∀ (i : Nat) (c : LineChange), (hunkChanges S body).get? i = some c →
      c.type ≠ ChangeType.deletion →
      ∃ n : Int, c.line = some n ∧ S ≤ n ∧ 0 < n) ∧
    (∀ (i : Nat) (c d : LineChange),
      (hunkChanges S body).get? i = some c →
      (hunkChanges S body).get? (i + 1) = some d →
      c.type ≠ ChangeType.deletion → d.type ≠ ChangeType.deletion →
      ∃ m n : Int, c.line = some m ∧ d.line = some n ∧ n = m + 1) := by
  refine ⟨?_, ?_, ?_⟩
  · rw [foldl_header_body st cf hl S body hcf hhl hS hbody]
  · intro i c hc hne
    refine ⟨S + countAC ((hunkChanges S body).take i),
      (hunkChanges_entry body S i c hc).2 hne, ?_, ?_⟩ <;> omega
  · intro i c d hc hd2 hcne hdne
    refine ⟨S + countAC ((hunkChanges S body).take i),
      S + countAC ((hunkChanges S body).take (i + 1)),
      (hunkChanges_entry body S i c hc).2 hcne,
      (hunkChanges_entry body S (i + 1) d hd2).2 hdne, ?_⟩
    have hgetl : (hunkChanges S body)[i]? = some c := by
      rw [← List.get?_eq_getElem?]
      exact hc
    have htake : (hunkChanges S body).take (i + 1)
        = (hunkChanges S body).take i ++ [c] := by
      rw [List.take_succ, hgetl]
      rfl
    have hac : isAC c = true := by
      unfold isAC
      cases hct : c.type
      · rfl
      · exact absurd hct hcne
      · rfl
    rw [htake]
    unfold countAC
    rw [List.countP_append]
    simp [hac, List.countP_cons]
    omega

/-- Witness for the amended C8 at a concrete hunk starting at line 7. -/
theorem C8_amended_hunk_lines_monotone_witness :
    (((("@@ -1,2 +7,3 @@")) :: [("+a"), ("-b"), (" c")]).foldl processLine
        ⟨[], some ⟨("f"), []⟩, none⟩).currentFile
        = some ⟨("f"), [] ++ hunkChanges 7 [("+a"), ("-b"), (" c")]⟩ ∧
    (∀ (i : Nat) (c : LineChange),
      (hunkChanges 7 [("+a"), ("-b"), (" c")]).get? i = some c →
      c.type ≠ ChangeType.deletion →
      ∃ n : Int, c.line = some n ∧ 7 ≤ n ∧ 0 < n) ∧
    (∀ (i : Nat) (c d : LineChange),
      (hunkChanges 7 [("+a"), ("-b"), (" c")]).get? i = some c →
      (hunkChanges 7 [("+a"), ("-b"), (" c")]).get? (i + 1) = some d →
      c.type ≠ ChangeType.deletion → d.type ≠ ChangeType.deletion →
      ∃ m n : Int, c.line = some m ∧ d.line = some n ∧ n = m + 1) :=
  C8_amended_hunk_lines_monotone ⟨[], some ⟨("f"), []⟩, none⟩ ⟨("f"), []⟩
    ("@@ -1,2 +7,3 @@") 7 [("+a"), ("-b"), (" c")] rfl (by decide) rfl (by decide) (by decide)

/-! ### Deduplication (C2) -/

/-- Whether a comment's deduplication key computes successfully and
equals `k`. -/
def keyIs (k : PyKey × PyKey × PyKey) (c : Json) : Bool :=
  match commentKey c with
  | Except.ok k2 => decide (k2 = k)
  | Except.error _ => false

/-- Full characterisation of the deduplication loop on key-computable
inputs: it succeeds, and for every key the output keeps exactly the first
input comment with that key (none if the key was already seen). -/
theorem dedupGo_characterisation (cs : List Json) : ∀ seen : List (PyKey × PyKey × PyKey),
    (∀ c ∈ cs, ∃ k, commentKey c = Except.ok k) →
    ∃ out, dedupGo seen cs = Except.ok out ∧
      ∀ k, out.filter (keyIs k)
        = if k ∈ seen then [] else (cs.filter (keyIs k)).take 1 := by
  induction cs with
  | nil =>
    intro seen _
    refine ⟨[], rfl, fun k => ?_⟩
    by_cases hk : k ∈ seen <;> simp [hk]
  | cons c rest ih =>
    intro seen h
    obtain ⟨kc, hkc⟩ := h c (List.mem_cons_self c rest)
    have hrest : ∀ x ∈ rest, ∃ k, commentKey x = Except.ok k :=
      fun x hx => h x (List.mem_cons_of_mem c hx)
    by_cases hseen : kc ∈ seen
    · obtain ⟨out, hout, hfil⟩ := ih seen hrest
      refine ⟨out, ?_, fun k => ?_⟩
      · simp [dedupGo, hkc, hseen, hout, Bind.bind, Except.bind]
      · rw [hfil k]
        by_cases hk : k ∈ seen
        · simp [hk]
        · have hckey : keyIs k c = false := by
            unfold keyIs
            rw [hkc]
            simp only [decide_eq_false_iff_not]
            intro he
            rw [he] at hseen
            exact hk hseen
          simp [hk, List.filter_cons_of_neg, hckey]
    · obtain ⟨out, hout, hfil⟩ := ih (kc :: seen) hrest
      refine ⟨c :: out, ?_, fun k => ?_⟩
      · simp [dedupGo, hkc, hseen, hout, Bind.bind, Except.bind, Pure.pure, Except.pure]
      · by_cases hk : k = kc
        · subst hk
          have hckey : keyIs k c = true := by
            unfold keyIs
            rw [hkc]
            simp
          rw [List.filter_cons_of_pos (by rw [hckey]), hfil k]
          simp [hseen, hckey]
        · have hckey : keyIs k c = false := by
            unfold keyIs
            rw [hkc]
            simp only [decide_eq_false_iff_not]
            exact fun he => hk he.symm
          rw [List.filter_cons_of_neg (by simp [hckey]), hfil k]
          by_cases hk2 : k ∈ seen
          · simp [List.mem_cons, hk, hk2]
          · rw [List.filter_cons_of_neg (by simp [hckey])]
            simp [List.mem_cons, hk, hk2]

/-- Claim C2: on key-computable findings the aggregator deduplicates by
the composite key (file, line-or-zero, first 50 characters of the issue
text): for every key exactly the first finding of the concatenated input
with that key survives, and when the concatenation is a higher-priority
block `A` followed by a lower-priority block `B` and `A` contains the key,
the survivor is the first `A`-finding with that key — i.e. the one of the
higher-priority worker. -/
theorem C2_dedup_first_occurrence_kept (A B : List Json) (k : PyKey × PyKey × PyKey)
    (a : Json)
    (hw : ∀ c ∈ A ++ B, ∃ kk, commentKey c = Except.ok kk)
    (ha : a ∈ A) (hak : commentKey a = Except.ok k) :
    ∃ out, dedupComments (A ++ B) = Except.ok out ∧
      (∀ kk, out.filter (keyIs kk) = ((A ++ B).filter (keyIs kk)).take 1) ∧
      out.filter (keyIs k) = (A.filter (keyIs k)).take 1 := by
  obtain ⟨out, hout, hfil⟩ := dedupGo_characterisation (A ++ B) [] hw
  have hall : ∀ kk, out.filter (keyIs kk) = ((A ++ B).filter (keyIs kk)).take 1 := by
    intro kk
    rw [hfil kk]
    simp
  refine ⟨out, hout, hall, ?_⟩
  rw [hall k, List.filter_append]
  have hmemf : a ∈ A.filter (keyIs k) := by
    refine List.mem_filter.mpr ⟨ha, ?_⟩
    unfold keyIs
    rw [hak]
    simp
  cases hAf : A.filter (keyIs k) with
  | nil => rw [hAf] at hmemf; simp at hmemf
  | cons x xs => simp

/-- Witness for C2: two workers report an issue with the same key on
file a.py line 1; the first worker's finding survives. -/
theorem C2_dedup_first_occurrence_kept_witness :
    ∃ out, dedupComments
        ([Json.obj [(("file"), Json.str ("a.py")), (("line"), Json.num 1),
                    (("issue"), Json.str ("bad name")), (("source"), Json.str ("readability"))]]
          ++ [Json.obj [(("file"), Json.str ("a.py")), (("line"), Json.num 1),
                        (("issue"), Json.str ("bad name")), (("source"), Json.str ("security"))]])
        = Except.ok out ∧
      (∀ kk, out.filter (keyIs kk)
        = (([Json.obj [(("file"), Json.str ("a.py")), (("line"), Json.num 1),
                       (("issue"), Json.str ("bad name")), (("source"), Json.str ("readability"))]]
            ++ [Json.obj [(("file"), Json.str ("a.py")), (("line"), Json.num 1),
                          (("issue"), Json.str ("bad name")), (("source"), Json.str ("security"))]]).filter
            (keyIs kk)).take 1) ∧
      out.filter (keyIs (PyKey.kstr ("a.py"), PyKey.knum 1, PyKey.kstr ("bad name")))
        = ([Json.obj [(("file"), Json.str ("a.py")), (("line"), Json.num 1),
                      (("issue"), Json.str ("bad name")), (("source"), Json.str ("readability"))]].filter
            (keyIs (PyKey.kstr ("a.py"), PyKey.knum 1, PyKey.kstr ("bad name")))).take 1 :=
  C2_dedup_first_occurrence_kept
    [Json.obj [(("file"), Json.str ("a.py")), (("line"), Json.num 1),
               (("issue"), Json.str ("bad name")), (("source"), Json.str ("readability"))]]
    [Json.obj [(("file"), Json.str ("a.py")), (("line"), Json.num 1),
               (("issue"), Json.str ("bad name")), (("source"), Json.str ("security"))]]
    (PyKey.kstr ("a.py"), PyKey.knum 1, PyKey.kstr ("bad name"))
    (Json.obj [(("file"), Json.str ("a.py")), (("line"), Json.num 1),
               (("issue"), Json.str ("bad name")), (("source"), Json.str ("readability"))])
    (by
      intro c hc
      simp only [List.cons_append, List.nil_append, List.mem_cons, List.not_mem_nil,
        or_false] at hc
      rcases hc with rfl | rfl
      · exact ⟨(PyKey.kstr ("a.py"), PyKey.knum 1, PyKey.kstr ("bad name")), rfl⟩
      · exact ⟨(PyKey.kstr ("a.py"), PyKey.knum 1, PyKey.kstr ("bad name")), rfl⟩)
    (List.mem_singleton_self _) rfl

/-! ### Schedule independence of the collection loop (C1, C5) -/

/-- Looking an element up in the pairing of a list with a function gives
the function value whenever the element occurs in the list. -/
theorem lookup_map_pair (f : AgentType → Except String String) :
    ∀ (sched : List AgentType) (a : AgentType), a ∈ sched →
    (sched.map (fun b => (b, f b))).lookup a = some (f a) := by
  intro sched
  induction sched with
  | nil => intro a ha; simp at ha
  | cons b bs ih =>
    intro a ha
    rw [List.map_cons]
    by_cases hab : a = b
    · subst hab
      simp [List.lookup]
    · have hne : (a == b) = false := by
        simp [hab]
      have hmem : a ∈ bs := by
        rcases List.mem_cons.mp ha with h | h
        · exact absurd h hab
        · exact h
      simp [List.lookup, hne, ih a hmem]

/-- Joining on a future returns its worker's own outcome under every
completion schedule in which the worker terminates. -/
theorem futureResult_eq (sched : List AgentType) (outcome : AgentType → Except String String)
    (a : AgentType) (ha : a ∈ sched) : futureResult sched outcome a = outcome a := by
  unfold futureResult completionEvents
  rw [lookup_map_pair outcome sched a ha]

/-- Under every complete completion schedule, the collection loop returns
the association list of bracketed outcomes in submission order. -/
theorem collectAgentResults_eq (sched : List AgentType)
    (outcome : AgentType → Except String String) (hs : ∀ a : AgentType, a ∈ sched) :
    collectAgentResults sched outcome
      = agentOrder.map (fun a => (a, bracketResult (outcome a))) := by
  unfold collectAgentResults
  exact List.map_congr_left fun a _ => by rw [futureResult_eq sched outcome a (hs a)]

/-- Claim C1: for fixed per-worker raw outcomes the pipeline result is
identical under any two completion schedules of the concurrent workers
(any two orders in which the submitted futures terminate), the collection
loop always yields the fixed submission order readability, logic,
performance, security, and the concatenated findings list is the
worker-priority-ordered concatenation of the per-worker extractions. -/
theorem C1_priority_order_schedule_independent (sched1 sched2 : List AgentType)
    (h1 : ∀ a : AgentType, a ∈ sched1) (h2 : ∀ a : AgentType, a ∈ sched2)
    (fence : String → Option String) (jparse : String → Option Json)
    (outcome : AgentType → String → Except String String) (sd : List (String × Json)) :
    run_review_pipeline sched1 fence jparse outcome sd
      = run_review_pipeline sched2 fence jparse outcome sd ∧
    (∀ g : AgentType → Except String String,
      collectAgentResults sched1 g
        = [(AgentType.readability, bracketResult (g AgentType.readability)),
           (AgentType.logic, bracketResult (g AgentType.logic)),
           (AgentType.performance, bracketResult (g AgentType.performance)),
           (AgentType.security, bracketResult (g AgentType.security))]) ∧
    (∀ (g : AgentType → Except String String) (xr xl xp xsec : List Json),
      extractFindings fence jparse (bracketResult (g AgentType.readability)) = Except.ok xr →
      extractFindings fence jparse (bracketResult (g AgentType.logic)) = Except.ok xl →
      extractFindings fence jparse (bracketResult (g AgentType.performance)) = Except.ok xp →
      extractFindings fence jparse (bracketResult (g AgentType.security)) = Except.ok xsec →
      collectAllComments fence jparse (collectAgentResults sched1 g)
        = Except.ok (xr ++ (xl ++ (xp ++ xsec)))) := by
  refine ⟨?_, ?_, ?_⟩
  · cases hr : renderDiffContext sd with
    | error e => simp [run_review_pipeline, hr, Bind.bind, Except.bind]
    | ok ctx =>
      simp only [run_review_pipeline, hr, Bind.bind, Except.bind]
      rw [collectAgentResults_eq sched1 _ h1, collectAgentResults_eq sched2 _ h2]
  · intro g
    rw [collectAgentResults_eq sched1 g h1]
    rfl
  · intro g xr xl xp xsec er el ep es
    rw [collectAgentResults_eq sched1 g h1]
    simp [collectAllComments, agentOrder, er, el, ep, es, Bind.bind, Except.bind,
      Pure.pure, Except.pure]

/-- Witness for C1: two specific schedules (reverse completion order
versus submission order) give the same result on a concrete run. -/
theorem C1_priority_order_schedule_independent_witness :
    run_review_pipeline
        [AgentType.security, AgentType.performance, AgentType.logic, AgentType.readability]
        (fun _ => none) (fun _ => some (Json.arr []))
        (fun _ _ => Except.ok ("[]")) [(("files"), Json.arr [])]
      = run_review_pipeline
        [AgentType.readability, AgentType.logic, AgentType.performance, AgentType.security]
        (fun _ => none) (fun _ => some (Json.arr []))
        (fun _ _ => Except.ok ("[]")) [(("files"), Json.arr [])] ∧
    (∀ g : AgentType → Except String String,
      collectAgentResults
          [AgentType.security, AgentType.performance, AgentType.logic, AgentType.readability] g
        = [(AgentType.readability, bracketResult (g AgentType.readability)),
           (AgentType.logic, bracketResult (g AgentType.logic)),
           (AgentType.performance, bracketResult (g AgentType.performance)),
           (AgentType.security, bracketResult (g AgentType.security))]) ∧
    (∀ (g : AgentType → Except String String) (xr xl xp xsec : List Json),
      extractFindings (fun _ => none) (fun _ => some (Json.arr []))
          (bracketResult (g AgentType.readability)) = Except.ok xr →
      extractFindings (fun _ => none) (fun _ => some (Json.arr []))
          (bracketResult (g AgentType.logic)) = Except.ok xl →
      extractFindings (fun _ => none) (fun _ => some (Json.arr []))
          (bracketResult (g AgentType.performance)) = Except.ok xp →
      extractFindings (fun _ => none) (fun _ => some (Json.arr []))
          (bracketResult (g AgentType.security)) = Except.ok xsec →
      collectAllComments (fun _ => none) (fun _ => some (Json.arr []))
          (collectAgentResults
            [AgentType.security, AgentType.performance, AgentType.logic, AgentType.readability] g)
        = Except.ok (xr ++ (xl ++ (xp ++ xsec)))) :=
  C1_priority_order_schedule_independent
    [AgentType.security, AgentType.performance, AgentType.logic, AgentType.readability]
    [AgentType.readability, AgentType.logic, AgentType.performance, AgentType.security]
    (by intro a; cases a <;> decide) (by intro a; cases a <;> decide)
    (fun _ => none) (fun _ => some (Json.arr []))
    (fun _ _ => Except.ok ("[]")) [(("files"), Json.arr [])]

/-- Claim C5: if any subset of the workers fails with an exception, the
pipeline behaves exactly as if those workers had returned the empty-array
string — no exception propagates from the collection loop, the remaining
workers' findings are untouched — and the empty-array string extracts to
zero findings. -/
theorem C5_worker_failures_isolated (sched : List AgentType)
    (hs : ∀ a : AgentType, a ∈ sched)
    (fence : String → Option String) (jparse : String → Option Json)
    (hf : fence ("[]") = none) (hj : jparse ("[]") = some (Json.arr []))
    (p : AgentType → Bool)
    (outcome outcome2 : AgentType → String → Except String String)
    (hfail : ∀ a ctx, p a = true → ∃ e, outcome a ctx = Except.error e)
    (hrepl : ∀ a ctx, outcome2 a ctx = if p a then Except.ok ("[]") else outcome a ctx)
    (sd : List (String × Json)) :
    run_review_pipeline sched fence jparse outcome sd
      = run_review_pipeline sched fence jparse outcome2 sd ∧
    extractFindings fence jparse ("[]") = Except.ok [] := by
  constructor
  · have hbr : ∀ a ctx, bracketResult (outcome a ctx) = bracketResult (outcome2 a ctx) := by
      intro a ctx
      by_cases hpa : p a = true
      · obtain ⟨e, he⟩ := hfail a ctx hpa
        rw [he, hrepl a ctx, hpa]
        rfl
      · have hpa2 : p a = false := by
          revert hpa; cases p a <;> simp
        rw [hrepl a ctx, hpa2]
        simp
    cases hr : renderDiffContext sd with
    | error e => simp [run_review_pipeline, hr, Bind.bind, Except.bind]
    | ok ctx =>
      simp only [run_review_pipeline, hr, Bind.bind, Except.bind]
      have : collectAgentResults sched (fun a => outcome a ctx)
          = collectAgentResults sched (fun a => outcome2 a ctx) := by
        rw [collectAgentResults_eq sched _ hs, collectAgentResults_eq sched _ hs]
        exact List.map_congr_left fun a _ => by rw [hbr a ctx]
      rw [this]
  · simp [extractFindings, hf, hj]

/-- Witness for C5: the security worker throws, the others return the
empty-array string; the run equals the fully-successful run. -/
theorem C5_worker_failures_isolated_witness :
    run_review_pipeline agentOrder (fun _ => none) (fun _ => some (Json.arr []))
        (fun a _ => match a with
          | AgentType.security => Except.error ("timeout")
          | _ => Except.ok ("[]"))
        [(("files"), Json.arr [])]
      = run_review_pipeline agentOrder (fun _ => none) (fun _ => some (Json.arr []))
        (fun a _ => match a with
          | AgentType.security => Except.ok ("[]")
          | _ => Except.ok ("[]"))
        [(("files"), Json.arr [])] ∧
    extractFindings (fun _ => none) (fun _ => some (Json.arr [])) ("[]") = Except.ok [] :=
  C5_worker_failures_isolated agentOrder (by intro a; cases a <;> decide)
    (fun _ => none) (fun _ => some (Json.arr [])) rfl rfl
    (fun a => match a with
      | AgentType.security => true
      | _ => false)
    (fun a _ => match a with
      | AgentType.security => Except.error ("timeout")
      | _ => Except.ok ("[]"))
    (fun a _ => match a with
      | AgentType.security => Except.ok ("[]")
      | _ => Except.ok ("[]"))
    (by intro a ctx hpa; cases a <;> simp_all)
    (by intro a ctx; cases a <;> rfl)
    [(("files"), Json.arr [])]

/-- Claim C6: extraction parses the fenced block when the fenced-block
search succeeds, parses the whole raw output when it does not, and
returns zero findings (without raising) whenever the structured parse of
the selected string fails. -/
theorem C6_extraction_fenced_else_whole (fence : String → Option String)
    (jparse : String → Option Json) (raw : String) :
    (fence raw = none → extractFindings fence jparse raw = parseFindings jparse raw) ∧
    (∀ s, fence raw = some s → extractFindings fence jparse raw = parseFindings jparse s) ∧
    (jparse (match fence raw with | some s => s | none => raw) = none →
      extractFindings fence jparse raw = Except.ok []) := by
  refine ⟨fun hn => ?_, fun s hs => ?_, fun hp => ?_⟩
  · simp [extractFindings, parseFindings, hn]
  · simp [extractFindings, parseFindings, hs]
  · cases hfr : fence raw with
    | none =>
      rw [hfr] at hp
      simp [extractFindings, hfr, hp]
    | some s =>
      rw [hfr] at hp
      simp [extractFindings, hfr, hp]

/-- Witness for C6 on a raw output that is not valid structured data. -/
theorem C6_extraction_fenced_else_whole_witness :
    ((fun _ : String => (none : Option String)) ("oops") = none →
      extractFindings (fun _ => none) (fun _ => none) ("oops")
        = parseFindings (fun _ => none) ("oops")) ∧
    (∀ s, (fun _ : String => (none : Option String)) ("oops") = some s →
      extractFindings (fun _ => none) (fun _ => none) ("oops")
        = parseFindings (fun _ => none) s) ∧
    ((fun _ : String => (none : Option Json))
        (match (fun _ : String => (none : Option String)) ("oops") with
          | some s => s
          | none => ("oops")) = none →
      extractFindings (fun _ => none) (fun _ => none) ("oops") = Except.ok []) :=
  C6_extraction_fenced_else_whole (fun _ => none) (fun _ => none) ("oops")

/-- Claim C7, counterexample: the claim asserts the pipeline raises only
when rendering fails.  Below rendering succeeds (an empty file list), all
four workers return normally, but the readability worker's output parses
to a dictionary whose comments entry is a number: `all_comments.extend`
then raises an uncaught `TypeError` and the pipeline surfaces it. -/
theorem C7_counterexample :
    renderDiffContext [(("files"), Json.arr [])]
        = Except.ok ("Code changes to review:\n\n") ∧
    run_review_pipeline agentOrder (fun _ => none)
        (fun s => if s = ("BAD") then some (Json.obj [(("comments"), Json.num 5)])
                  else some (Json.arr []))
        (fun a _ => match a with
          | AgentType.readability => Except.ok ("BAD")
          | _ => Except.ok ("[]"))
        [(("files"), Json.arr [])]
      = Except.error PyErr.typeError :=
  ⟨rfl, rfl⟩

/-- Claim C7, amended: the pipeline surfaces an error to its caller only
when the rendering step fails or when a worker's parsed findings are
malformed (a non-iterable comments entry, or findings on which the
deduplication key raises); whenever rendering succeeds, every worker's
extraction succeeds and every extracted finding has a computable
deduplication key, the pipeline returns a (possibly empty) result. -/
theorem C7_amended_raise_surface (sched : List AgentType) (fence : String → Option String)
    (jparse : String → Option Json) (outcome : AgentType → String → Except String String)
    (sd : List (String × Json)) (ctx : String)
    (hr : renderDiffContext sd = Except.ok ctx)
    (hx : ∀ a : AgentType, ∃ xs : List Json,
      extractFindings fence jparse
          (bracketResult (futureResult sched (fun b => outcome b ctx) a)) = Except.ok xs ∧
      ∀ c ∈ xs, ∃ kk, commentKey c = Except.ok kk) :
    ∃ out : ReviewOutput,
      run_review_pipeline sched fence jparse outcome sd = Except.ok out := by
  obtain ⟨xr, er, wr⟩ := hx AgentType.readability
  obtain ⟨xl, el, wl⟩ := hx AgentType.logic
  obtain ⟨xp, ep, wp⟩ := hx AgentType.performance
  obtain ⟨xsec, es, ws⟩ := hx AgentType.security
  have hall : collectAllComments fence jparse
      (collectAgentResults sched (fun a => outcome a ctx))
      = Except.ok (xr ++ (xl ++ (xp ++ xsec))) := by
    simp [collectAllComments, collectAgentResults, agentOrder, er, el, ep, es,
      Bind.bind, Except.bind, Pure.pure, Except.pure]
  have hwk : ∀ c ∈ xr ++ (xl ++ (xp ++ xsec)), ∃ kk, commentKey c = Except.ok kk := by
    intro c hc
    simp only [List.mem_append] at hc
    rcases hc with hc | hc | hc | hc
    exacts [wr c hc, wl c hc, wp c hc, ws c hc]
  obtain ⟨dout, hdout, -⟩ := dedupGo_characterisation (xr ++ (xl ++ (xp ++ xsec))) [] hwk
  refine ⟨⟨dout⟩, ?_⟩
  simp [run_review_pipeline, hr, hall, dedupComments, hdout, Bind.bind, Except.bind,
    Pure.pure, Except.pure]

/-- Witness for the amended C7: with well-formed (empty) worker outputs
the pipeline returns a result. -/
theorem C7_amended_raise_surface_witness :
    ∃ out : ReviewOutput,
      run_review_pipeline agentOrder (fun _ => none) (fun _ => some (Json.arr []))
          (fun _ _ => Except.ok ("[]")) [(("files"), Json.arr [])]
        = Except.ok out :=
  C7_amended_raise_surface agentOrder (fun _ => none) (fun _ => some (Json.arr []))
    (fun _ _ => Except.ok ("[]")) [(("files"), Json.arr [])]
    ("Code changes to review:\n\n") rfl
    (fun a => ⟨[], by cases a <;> rfl, by simp⟩)

/-! ### The rendered analyzer context (C9) -/

/-- The JSON encoding of an optional line number, as built by the
endpoint glue of src/backend/src/main.py (`"line": c.line`). -/
def encodeLine : Option Int → Json
  | none => Json.null
  | some n => Json.num n

/-- The string of a change kind, as serialised by the endpoint glue. -/
def ctypeName : ChangeType → String
  | ChangeType.addition => ("addition")
  | ChangeType.deletion => ("deletion")
  | ChangeType.context => ("context")

/-- The per-change dictionary built by src/backend/src/main.py:
`{"type": c.type, "line": c.line, "content": c.content}`. -/
def encodeChange (c : LineChange) : Json :=
  Json.obj [(("type"), Json.str (ctypeName c.type)),
            (("line"), encodeLine c.line),
            (("content"), Json.str c.content)]

/-- The per-file dictionary built by src/backend/src/main.py:
`{"file": fd.file, "changes": [...]}`. -/
def encodeFile (fd : FileDiff) : Json :=
  Json.obj [(("file"), Json.str fd.file),
            (("changes"), Json.arr (fd.changes.map encodeChange))]

/-- The `structured_diff` dictionary built by src/backend/src/main.py:
`{"files": files}`. -/
def encodeChangeSet (cs : List FileDiff) : List (String × Json) :=
  [(("files"), Json.arr (cs.map encodeFile))]

/-- Concatenation of a list of strings. -/
def strJoin : List String → String
  | [] => ""
  | s :: rest => s ++ strJoin rest

/-- The rendered entry of one change: additions and deletions in the
exact interface format, context lines omitted. -/
def entryStr (c : LineChange) : String :=
  match c.type with
  | ChangeType.addition =>
    ("  Line ") ++ pyStr (encodeLine c.line) ++ (" (+): ") ++ c.content ++ ("\n")
  | ChangeType.deletion =>
    ("  Line ") ++ pyStr (encodeLine c.line) ++ (" (-): ") ++ c.content ++ ("\n")
  | ChangeType.context => ""

/-- The rendered block of one file: its path, the changes header, and the
entries of its changes. -/
def fileBlock (fd : FileDiff) : String :=
  ("File: ") ++ fd.file ++ ("\n") ++ ("Changes:\n")
    ++ strJoin (fd.changes.map entryStr) ++ ("\n")

/-- The full rendered analyzer context of a change set. -/
def renderedContext (cs : List FileDiff) : String :=
  ("Code changes to review:\n\n") ++ strJoin (cs.map fileBlock)

/-- The inner rendering step on an encoded change appends exactly its
entry string. -/
theorem renderChangeStep_encode (acc : String) (c : LineChange) :
    renderChangeStep acc (encodeChange c) = Except.ok (acc ++ entryStr c) := by
  obtain ⟨t, ln, cont⟩ := c
  cases t
  · have h1 : renderChangeStep acc (encodeChange ⟨ChangeType.addition, ln, cont⟩)
        = Except.ok (acc ++ ("  Line ") ++ pyStr (encodeLine ln) ++ (" (+): ")
            ++ cont ++ ("\n")) := rfl
    rw [h1]
    congr 1
    apply String.ext
    simp [entryStr, String.data_append, List.append_assoc]
  · have h1 : renderChangeStep acc (encodeChange ⟨ChangeType.deletion, ln, cont⟩)
        = Except.ok (acc ++ ("  Line ") ++ pyStr (encodeLine ln) ++ (" (-): ")
            ++ cont ++ ("\n")) := rfl
    rw [h1]
    congr 1
    apply String.ext
    simp [entryStr, String.data_append, List.append_assoc]
  · show Except.ok acc = Except.ok (acc ++ ("" : String))
    rw [String.append_empty]

/-- The inner rendering loop on encoded changes appends exactly the
joined entry strings. -/
theorem renderChanges_fold (changes : List LineChange) : ∀ acc : String,
    (changes.map encodeChange).foldlM renderChangeStep acc
      = Except.ok (acc ++ strJoin (changes.map entryStr)) := by
  induction changes with
  | nil =>
    intro acc
    show Except.ok acc = Except.ok (acc ++ ("" : String))
    rw [String.append_empty]
  | cons c cs ih =>
    intro acc
    rw [List.map_cons, List.map_cons]
    have hstep : (encodeChange c :: cs.map encodeChange).foldlM renderChangeStep acc
        = (renderChangeStep acc (encodeChange c)).bind
            (fun s => (cs.map encodeChange).foldlM renderChangeStep s) := rfl
    rw [hstep, renderChangeStep_encode]
    show (cs.map encodeChange).foldlM renderChangeStep (acc ++ entryStr c)
        = Except.ok (acc ++ strJoin (entryStr c :: cs.map entryStr))
    rw [ih (acc ++ entryStr c)]
    show Except.ok ((acc ++ entryStr c) ++ strJoin (cs.map entryStr))
        = Except.ok (acc ++ (entryStr c ++ strJoin (cs.map entryStr)))
    rw [String.append_assoc]

/-- The outer rendering step on an encoded file appends exactly its file
block. -/
theorem renderFileStep_encode (acc : String) (fd : FileDiff) :
    renderFileStep acc (encodeFile fd) = Except.ok (acc ++ fileBlock fd) := by
  have h1 : renderFileStep acc (encodeFile fd)
      = ((fd.changes.map encodeChange).foldlM renderChangeStep
          (acc ++ ("File: ") ++ fd.file ++ ("\n") ++ ("Changes:\n"))).bind
          (fun acc2 => Except.ok (acc2 ++ ("\n"))) := rfl
  rw [h1, renderChanges_fold]
  show Except.ok ((acc ++ ("File: ") ++ fd.file ++ ("\n") ++ ("Changes:\n")
      ++ strJoin (fd.changes.map entryStr)) ++ ("\n"))
      = Except.ok (acc ++ fileBlock fd)
  congr 1
  unfold fileBlock
  simp [String.append_assoc]

/-- The outer rendering loop on encoded files appends exactly the joined
file blocks. -/
theorem renderFiles_fold (cs : List FileDiff) : ∀ acc : String,
    (cs.map encodeFile).foldlM renderFileStep acc
      = Except.ok (acc ++ strJoin (cs.map fileBlock)) := by
  induction cs with
  | nil =>
    intro acc
    show Except.ok acc = Except.ok (acc ++ ("" : String))
    rw [String.append_empty]
  | cons fd fds ih =>
    intro acc
    rw [List.map_cons, List.map_cons]
    have hstep : (encodeFile fd :: fds.map encodeFile).foldlM renderFileStep acc
        = (renderFileStep acc (encodeFile fd)).bind
            (fun s => (fds.map encodeFile).foldlM renderFileStep s) := rfl
    rw [hstep, renderFileStep_encode]
    show (fds.map encodeFile).foldlM renderFileStep (acc ++ fileBlock fd)
        = Except.ok (acc ++ strJoin (fileBlock fd :: fds.map fileBlock))
    rw [ih (acc ++ fileBlock fd)]
    show Except.ok ((acc ++ fileBlock fd) ++ strJoin (fds.map fileBlock))
        = Except.ok (acc ++ (fileBlock fd ++ strJoin (fds.map fileBlock)))
    rw [String.append_assoc]

/-- Rendering the encoded change set gives exactly the rendered context. -/
theorem renderDiffContext_encode (cs : List FileDiff) :
    renderDiffContext (encodeChangeSet cs) = Except.ok (renderedContext cs) := by
  have h1 : renderDiffContext (encodeChangeSet cs)
      = (cs.map encodeFile).foldlM renderFileStep ("Code changes to review:\n\n") := rfl
  rw [h1, renderFiles_fold]
  rfl

/-- An element's image occurs inside the join of the images of a list. -/
theorem strJoin_mem_split {α : Type} (f : α → String) :
    ∀ (xs : List α) (x : α), x ∈ xs →
    ∃ p q : List Char, (strJoin (xs.map f)).data = p ++ (f x).data ++ q := by
  intro xs
  induction xs with
  | nil => intro x hx; simp at hx
  | cons y ys ih =>
    intro x hx
    rcases List.mem_cons.mp hx with rfl | hx2
    · refine ⟨[], (strJoin (ys.map f)).data, ?_⟩
      rw [List.map_cons,
        show strJoin (f x :: ys.map f) = f x ++ strJoin (ys.map f) from rfl,
        String.data_append]
      simp
    · obtain ⟨p, q, hpq⟩ := ih x hx2
      refine ⟨(f y).data ++ p, q, ?_⟩
      rw [List.map_cons,
        show strJoin (f y :: ys.map f) = f y ++ strJoin (ys.map f) from rfl,
        String.data_append, hpq]
      simp [List.append_assoc]

/-- Claim C9: on every encoded change set the rendering step succeeds and
produces exactly the rendered context; that context contains, for each
file, the file block (its path followed by its entries), the entries of a
file contain, for each change, its entry string, and the entry string of
an addition or a deletion has the exact interface format (with the line
value rendered by Python `str`), context lines being omitted. -/
theorem C9_rendered_context_format (cs : List FileDiff) :
    renderDiffContext (encodeChangeSet cs) = Except.ok (renderedContext cs) ∧
    (∀ fd ∈ cs, ∃ p q : List Char,
      (renderedContext cs).data = p ++ (fileBlock fd).data ++ q) ∧
    (∀ fd : FileDiff, ∀ c ∈ fd.changes, ∃ u v : List Char,
      (strJoin (fd.changes.map entryStr)).data = u ++ (entryStr c).data ++ v) ∧
    (∀ fd : FileDiff, fileBlock fd
      = ("File: ") ++ fd.file ++ ("\n") ++ ("Changes:\n")
        ++ strJoin (fd.changes.map entryStr) ++ ("\n")) ∧
    (∀ c : LineChange, c.type = ChangeType.addition →
      entryStr c = ("  Line ") ++ pyStr (encodeLine c.line) ++ (" (+): ")
        ++ c.content ++ ("\n")) ∧
    (∀ c : LineChange, c.type = ChangeType.deletion →
      entryStr c = ("  Line ") ++ pyStr (encodeLine c.line) ++ (" (-): ")
        ++ c.content ++ ("\n")) ∧
    (∀ c : LineChange, c.type = ChangeType.context → entryStr c = ("")) := by
  refine ⟨renderDiffContext_encode cs, ?_, ?_, fun fd => rfl, ?_, ?_, ?_⟩
  · intro fd hfd
    obtain ⟨p, q, hpq⟩ := strJoin_mem_split fileBlock cs fd hfd
    refine ⟨("Code changes to review:\n\n").data ++ p, q, ?_⟩
    rw [show renderedContext cs
        = ("Code changes to review:\n\n") ++ strJoin (cs.map fileBlock) from rfl,
      String.data_append, hpq]
    simp [List.append_assoc]
  · intro fd c hc
    exact strJoin_mem_split entryStr fd.changes c hc
  · rintro ⟨t, ln, cont⟩ hct
    simp only at hct
    subst hct
    rfl
  · rintro ⟨t, ln, cont⟩ hct
    simp only at hct
    subst hct
    rfl
  · rintro ⟨t, ln, cont⟩ hct
    simp only at hct
    subst hct
    rfl

/-- Witness for C9 on a one-file change set with an addition, a deletion
and a context line. -/
theorem C9_rendered_context_format_witness :
    renderDiffContext (encodeChangeSet
        [⟨("app.py"), [⟨ChangeType.addition, some 15, ("x = 1")⟩,
                       ⟨ChangeType.deletion, none, ("old")⟩,
                       ⟨ChangeType.context, some 16, ("z")⟩]⟩])
      = Except.ok (renderedContext
        [⟨("app.py"), [⟨ChangeType.addition, some 15, ("x = 1")⟩,
                       ⟨ChangeType.deletion, none, ("old")⟩,
                       ⟨ChangeType.context, some 16, ("z")⟩]⟩]) ∧
    (∃ p q : List Char,
      (renderedContext
        [⟨("app.py"), [⟨ChangeType.addition, some 15, ("x = 1")⟩,
                       ⟨ChangeType.deletion, none, ("old")⟩,
                       ⟨ChangeType.context, some 16, ("z")⟩]⟩]).data
        = p ++ (fileBlock ⟨("app.py"), [⟨ChangeType.addition, some 15, ("x = 1")⟩,
                       ⟨ChangeType.deletion, none, ("old")⟩,
                       ⟨ChangeType.context, some 16, ("z")⟩]⟩).data ++ q) ∧
    (∃ u v : List Char,
      (strJoin ([⟨ChangeType.addition, some 15, ("x = 1")⟩,
                 ⟨ChangeType.deletion, none, ("old")⟩,
                 ⟨ChangeType.context, some 16, ("z")⟩].map entryStr)).data
        = u ++ (entryStr ⟨ChangeType.addition, some 15, ("x = 1")⟩).data ++ v) :=
  ⟨(C9_rendered_context_format
      [⟨("app.py"), [⟨ChangeType.addition, some 15, ("x = 1")⟩,
                     ⟨ChangeType.deletion, none, ("old")⟩,
                     ⟨ChangeType.context, some 16, ("z")⟩]⟩]).1,
   (C9_rendered_context_format
      [⟨("app.py"), [⟨ChangeType.addition, some 15, ("x = 1")⟩,
                     ⟨ChangeType.deletion, none, ("old")⟩,
                     ⟨ChangeType.context, some 16, ("z")⟩]⟩]).2.1
      ⟨("app.py"), [⟨ChangeType.addition, some 15, ("x = 1")⟩,
                     ⟨ChangeType.deletion, none, ("old")⟩,
                     ⟨ChangeType.context, some 16, ("z")⟩]⟩ (List.mem_singleton_self _),
   (C9_rendered_context_format
      [⟨("app.py"), [⟨ChangeType.addition, some 15, ("x = 1")⟩,
                     ⟨ChangeType.deletion, none, ("old")⟩,
                     ⟨ChangeType.context, some 16, ("z")⟩]⟩]).2.2.1
      ⟨("app.py"), [⟨ChangeType.addition, some 15, ("x = 1")⟩,
                     ⟨ChangeType.deletion, none, ("old")⟩,
                     ⟨ChangeType.context, some 16, ("z")⟩]⟩
      ⟨ChangeType.addition, some 15, ("x = 1")⟩ (List.mem_cons_self _ _)⟩

end PRRA
